import Mathlib

/-!
Verification of the `unitsvc/eino` repository fragments against its
natural-language specification.

The development shallowly embeds the Go sources:
* `compose/graph_mermaid.go` (namespace `GraphMermaid`) and the second
  revision of the same file (namespace `Part000`): the Mermaid flowchart
  generator `GenerateMermaidFlowchart`;
* the `adk` run-session code (namespace `Adk`): `runSession`,
  `replaceInterruptRunCtx`, the session value bag and its public accessors;
* the supervisor sub-agent wrapper (namespace `Supervisor`):
  `BackToParentWrapper.Run`'s event-forwarding worker;
* the stream pipe contract (namespace `StreamPipe`) and the ReAct agent loop
  (namespace `React`), both modelled from the specification because their
  implementations are not among the provided sources.

Go maps are modelled as association lists whose iteration order is the list
order; Go slices as lists; `nil`-able pointers as `Option`.
-/

namespace GraphMermaid

/-- Node metadata as accessed by `GenerateMermaidFlowchart`
(`nodeInfo.Component`).  The `GraphInfo` node value type itself is declared
outside the provided sources; only the `Component` field is read here. -/
structure GraphNodeInfo where
  Component : String
deriving DecidableEq, Repr

/-- One branch attached to a node.  `endNodes` models the key set of the map
returned by `branch.GetEndNode()`. -/
structure GraphBranch where
  endNodes : List String
deriving DecidableEq, Repr

/-- The compiled-graph metadata consumed by `GenerateMermaidFlowchart`,
with the fields the function reads: `Nodes` (map node key to node info),
`Edges` and `DataEdges` (maps from source key to target keys) and `Branches`
(map from source key to its branch list).  Go maps are association lists. -/
structure GraphInfo where
  Nodes : List (String × GraphNodeInfo)
  Edges : List (String × List String)
  DataEdges : List (String × List String)
  Branches : List (String × List GraphBranch)
deriving DecidableEq, Repr

/-- The characters replaced by `escapeID`'s `strings.NewReplacer` call. -/
def replacedChars : List Char :=
  ['-', '.', ' ', '(', ')', '[', ']', '\x7b', '\x7d', '<', '>', '/', '\\', '|', '\"', ':']

/-- Replacement of a single character, as performed by the `escapeID`
replacer (each pattern is a single character, each replacement is `_`). -/
def escapeChar (c : Char) : Char :=
  if c ∈ replacedChars then '_' else c

/-- `escapeID`: replaces characters that are invalid in Mermaid node IDs. -/
def escapeID (s : String) : String :=
  ⟨s.data.map escapeChar⟩

/-- The final contents of `idMap` as a lookup function: every node key `k`
maps to `"N_" ++ escapeID k`, and afterwards the entries for `"start"` and
`"end"` are overwritten with the reserved IDs. -/
def idMapLookup (info : GraphInfo) (key : String) : Option String :=
  if key = "start" then some "StartNode"
  else if key = "end" then some "EndNode"
  else if info.Nodes.any (fun p => p.1 == key) then some ("N_" ++ escapeID key)
  else none

/-- `edgeKey` creates a unique string key for an edge to check for
duplicates. -/
def edgeKey (f t : String) : String :=
  f ++ "-->" ++ t

/-- The text written for one edge: `fmt.Sprintf("    %s ARROW %s\n", f, t)`. -/
def arrowLine (f arrow t : String) : String :=
  "    " ++ f ++ " " ++ arrow ++ " " ++ t ++ "\n"

/-- A solid control-flow edge line. -/
def solidLine (f t : String) : String :=
  arrowLine f "-->" t

/-- A dashed data-flow edge line. -/
def dashedLine (f t : String) : String :=
  arrowLine f "-.->" t

/-- State threaded through the edge-emitting loops: the pieces written to
the buffer for edges (in order) and the `seenEdges` set (insertion order). -/
structure MState where
  out : List String
  seen : List String
deriving DecidableEq, Repr

/-- One guarded edge emission: `if !seenEdges[key] { write line; mark }`
(the data-edge loop's `if seenEdges[key] { continue }` has the same
semantics). -/
def emitEdge (arrow : String) (st : MState) (f t : String) : MState :=
  if st.seen.contains (edgeKey f t) then st
  else ⟨st.out ++ [arrowLine f arrow t], st.seen ++ [edgeKey f t]⟩

/-- The inner loop over a target list: look up each target's ID, skipping
unknown targets, and emit the edge. -/
def processToList (idMap : String → Option String) (arrow f : String)
    (ts : List String) (st : MState) : MState :=
  ts.foldl (fun st t =>
    match idMap t with
    | none => st
    | some tID => emitEdge arrow st f tID) st

/-- A loop over an edge map (`info.Edges` or `info.DataEdges`): look up the
source ID, skipping unknown sources, then run the target loop. -/
def processEdges (idMap : String → Option String) (arrow : String)
    (edges : List (String × List String)) (st : MState) : MState :=
  edges.foldl (fun st e =>
    match idMap e.1 with
    | none => st
    | some fID => processToList idMap arrow fID e.2 st) st

/-- The branch loop: for every branch of every source node, emit a solid
edge to each branch end node (empty branch lists and empty end-node sets
only produce log output and are skipped). -/
def processBranches (idMap : String → Option String)
    (branches : List (String × List GraphBranch)) (st : MState) : MState :=
  branches.foldl (fun st b =>
    if b.2.isEmpty then st
    else
      match idMap b.1 with
      | none => st
      | some fID =>
          b.2.foldl (fun st br =>
            if br.endNodes.isEmpty then st
            else processToList idMap "-->" fID br.endNodes st) st) st

/-- The state after the control-flow edge loop, starting from the empty
buffer and empty `seenEdges`. -/
def controlState (info : GraphInfo) : MState :=
  processEdges (idMapLookup info) "-->" info.Edges ⟨[], []⟩

/-- The state after the data-flow edge loop. -/
def dataState (info : GraphInfo) : MState :=
  processEdges (idMapLookup info) "-.->" info.DataEdges (controlState info)

/-- The full edge section: control edges, then data edges, then branch
edges, sharing one `seenEdges` set. -/
def edgeSection (info : GraphInfo) : MState :=
  processBranches (idMapLookup info) info.Branches (dataState info)

/-- The declaration line written for one user-defined node
(`fmt.Sprintf("    %s[\"%s: %s\"]\n", id, nodeKey, component)`, with the
component defaulting to `"Node"`). -/
def nodeLine (info : GraphInfo) (p : String × GraphNodeInfo) : String :=
  let id := (idMapLookup info p.1).getD ""
  let component := if p.2.Component = "" then "Node" else p.2.Component
  "    " ++ id ++ "[\"" ++ p.1 ++ ": " ++ component ++ "\"]\n"

/-- All pieces written to the buffer by `GenerateMermaidFlowchart`, in
order: header, reserved start and end nodes, the user-defined node
declarations, a blank line, then the edge section. -/
def GenerateMermaidFlowchartLines (info : GraphInfo) : List String :=
  ["graph TD\n", "    StartNode([Start])\n", "    EndNode([End])\n"]
    ++ info.Nodes.map (nodeLine info) ++ ["\n"] ++ (edgeSection info).out

/-- `GenerateMermaidFlowchart` generates a Mermaid flowchart string from the
provided `GraphInfo`: the concatenation of everything written to `buf`. -/
def GenerateMermaidFlowchart (info : GraphInfo) : String :=
  String.join (GenerateMermaidFlowchartLines info)

end GraphMermaid

namespace Part000

open GraphMermaid (GraphInfo GraphNodeInfo GraphBranch MState)

/-- The single-character replacement performed by the `escapeID` replacer in
the second revision of the generator (`src/unnamed/part_000`). -/
def escapeChar (c : Char) : Char :=
  if c ∈ GraphMermaid.replacedChars then '_' else c

/-- `escapeID` of the second revision. -/
def escapeID (s : String) : String :=
  ⟨s.data.map escapeChar⟩

/-- The final contents of `idMap` in the second revision. -/
def idMapLookup (info : GraphInfo) (key : String) : Option String :=
  if key = "start" then some "StartNode"
  else if key = "end" then some "EndNode"
  else if info.Nodes.any (fun p => p.1 == key) then some ("N_" ++ escapeID key)
  else none

/-- `edgeKey` of the second revision. -/
def edgeKey (f t : String) : String :=
  f ++ "-->" ++ t

/-- The text written for one edge in the second revision. -/
def arrowLine (f arrow t : String) : String :=
  "    " ++ f ++ " " ++ arrow ++ " " ++ t ++ "\n"

/-- One guarded edge emission in the second revision. -/
def emitEdge (arrow : String) (st : MState) (f t : String) : MState :=
  if st.seen.contains (edgeKey f t) then st
  else ⟨st.out ++ [arrowLine f arrow t], st.seen ++ [edgeKey f t]⟩

/-- The inner target loop of the second revision. -/
def processToList (idMap : String → Option String) (arrow f : String)
    (ts : List String) (st : MState) : MState :=
  ts.foldl (fun st t =>
    match idMap t with
    | none => st
    | some tID => emitEdge arrow st f tID) st

/-- The edge-map loop of the second revision. -/
def processEdges (idMap : String → Option String) (arrow : String)
    (edges : List (String × List String)) (st : MState) : MState :=
  edges.foldl (fun st e =>
    match idMap e.1 with
    | none => st
    | some fID => processToList idMap arrow fID e.2 st) st

/-- The branch loop of the second revision. -/
def processBranches (idMap : String → Option String)
    (branches : List (String × List GraphBranch)) (st : MState) : MState :=
  branches.foldl (fun st b =>
    if b.2.isEmpty then st
    else
      match idMap b.1 with
      | none => st
      | some fID =>
          b.2.foldl (fun st br =>
            if br.endNodes.isEmpty then st
            else processToList idMap "-->" fID br.endNodes st) st) st

/-- The node declaration line of the second revision. -/
def nodeLine (info : GraphInfo) (p : String × GraphNodeInfo) : String :=
  let id := (idMapLookup info p.1).getD ""
  let component := if p.2.Component = "" then "Node" else p.2.Component
  "    " ++ id ++ "[\"" ++ p.1 ++ ": " ++ component ++ "\"]\n"

/-- All pieces written to the buffer by the second revision's
`GenerateMermaidFlowchart`, in order. -/
def GenerateMermaidFlowchartLines (info : GraphInfo) : List String :=
  ["graph TD\n", "    StartNode([Start])\n", "    EndNode([End])\n"]
    ++ info.Nodes.map (nodeLine info)
    ++ ["\n"]
    ++ (processBranches (idMapLookup info) info.Branches
          (processEdges (idMapLookup info) "-.->" info.DataEdges
            (processEdges (idMapLookup info) "-->" info.Edges ⟨[], []⟩))).out

/-- `GenerateMermaidFlowchart` as defined in `src/unnamed/part_000`. -/
def GenerateMermaidFlowchart (info : GraphInfo) : String :=
  String.join (GenerateMermaidFlowchartLines info)

end Part000

/-! ### String helper lemmas -/

lemma strFoldlAppend (l : List String) : ∀ a : String,
    l.foldl (fun r s => r ++ s) a = a ++ l.foldl (fun r s => r ++ s) "" := by
  induction l with
  | nil => intro a; simp [String.append_empty]
  | cons s l ih =>
      intro a
      simp only [List.foldl_cons]
      rw [ih (a ++ s), ih ("" ++ s), String.empty_append, String.append_assoc]

lemma strJoinCons (s : String) (l : List String) :
    String.join (s :: l) = s ++ String.join l := by
  show (s :: l).foldl (fun r s => r ++ s) "" = s ++ l.foldl (fun r s => r ++ s) ""
  simp only [List.foldl_cons]
  rw [strFoldlAppend l ("" ++ s), String.empty_append]

namespace GraphMermaid

/-- A string usable as a Mermaid node ID: it contains neither `-` nor `[`
(every ID produced by `idMapLookup` has this property, because `escapeID`
replaces both characters). -/
def goodID (s : String) : Prop := '-' ∉ s.data ∧ '[' ∉ s.data

lemma escapeChar_ne {d : Char} (hd : d ∈ replacedChars) (hd' : d ≠ '_') (c : Char) :
    escapeChar c ≠ d := by
  unfold escapeChar
  split
  · exact fun h => hd' h.symm
  · next hmem => exact fun h => hmem (h ▸ hd)

lemma goodID_idMapLookup {info : GraphInfo} {k F : String}
    (h : idMapLookup info k = some F) : goodID F := by
  unfold idMapLookup at h
  split at h
  · cases h; constructor <;> decide
  · split at h
    · cases h; constructor <;> decide
    · split at h
      · cases h
        constructor
        · intro hmem
          rw [String.data_append] at hmem
          rcases List.mem_append.mp hmem with h1 | h1
          · revert h1; decide
          · obtain ⟨c, _, hc⟩ := List.mem_map.mp h1
            exact escapeChar_ne (by decide) (by decide) c hc
        · intro hmem
          rw [String.data_append] at hmem
          rcases List.mem_append.mp hmem with h1 | h1
          · revert h1; decide
          · obtain ⟨c, _, hc⟩ := List.mem_map.mp h1
            exact escapeChar_ne (by decide) (by decide) c hc
      · cases h

/-- Splitting two equal lists at the first occurrence of a marker
character that is absent from both prefixes. -/
lemma append_marker_inj {x : Char} :
    ∀ (a : List Char) {c r s : List Char}, x ∉ a → x ∉ c →
      a ++ x :: r = c ++ x :: s → a = c ∧ r = s := by
  intro a
  induction a with
  | nil =>
      intro c r s _ hc h
      cases c with
      | nil => simpa using h
      | cons y c =>
          simp only [List.nil_append, List.cons_append, List.cons.injEq] at h
          exact absurd (h.1 ▸ List.mem_cons_self y c) hc
  | cons z a ih =>
      intro c r s ha hc h
      cases c with
      | nil =>
          simp only [List.cons_append, List.nil_append, List.cons.injEq] at h
          exact absurd (h.1 ▸ List.mem_cons_self z a) ha
      | cons y c =>
          simp only [List.cons_append, List.cons.injEq] at h
          obtain ⟨rfl, h2⟩ := h
          have ha' : x ∉ a := fun hx => ha (List.mem_cons_of_mem _ hx)
          have hc' : x ∉ c := fun hx => hc (List.mem_cons_of_mem _ hx)
          obtain ⟨h3, h4⟩ := ih ha' hc' h2
          exact ⟨by rw [h3], h4⟩

lemma edgeKey_data (F T : String) :
    (edgeKey F T).data = F.data ++ '-' :: '-' :: '>' :: T.data := by
  simp only [edgeKey, String.data_append, List.append_assoc]
  rfl

lemma edgeKey_inj {F T F' T' : String} (hF : '-' ∉ F.data) (hF' : '-' ∉ F'.data)
    (h : edgeKey F T = edgeKey F' T') : F = F' ∧ T = T' := by
  have h' := congrArg String.data h
  rw [edgeKey_data, edgeKey_data] at h'
  obtain ⟨h1, h2⟩ := append_marker_inj _ hF hF' h'
  refine ⟨String.ext h1, String.ext ?_⟩
  simpa using h2

lemma solidLine_data (F T : String) :
    (solidLine F T).data
      = (' ' :: ' ' :: ' ' :: ' ' :: (F.data ++ [' ']))
          ++ '-' :: '-' :: '>' :: ' ' :: (T.data ++ ['\n']) := by
  simp [solidLine, arrowLine, String.data_append, List.append_assoc]

lemma dashedLine_data (F T : String) :
    (dashedLine F T).data
      = (' ' :: ' ' :: ' ' :: ' ' :: (F.data ++ [' ']))
          ++ '-' :: '.' :: '-' :: '>' :: ' ' :: (T.data ++ ['\n']) := by
  simp [dashedLine, arrowLine, String.data_append, List.append_assoc]

lemma marker_free {F : String} (hF : '-' ∉ F.data) :
    '-' ∉ ' ' :: ' ' :: ' ' :: ' ' :: (F.data ++ [' ']) := by
  intro h
  simp only [List.mem_cons, List.mem_append, List.mem_singleton] at h
  rcases h with h | h | h | h | h | h <;> first
    | exact absurd h (by decide)
    | exact hF h

lemma spineEq {F F' : String}
    (h : ' ' :: ' ' :: ' ' :: ' ' :: (F.data ++ [' '])
        = ' ' :: ' ' :: ' ' :: ' ' :: (F'.data ++ [' '])) : F = F' := by
  simp only [List.cons.injEq, true_and] at h
  exact String.ext (List.append_cancel_right h)

lemma solidLine_inj {F T F' T' : String} (hF : '-' ∉ F.data) (hF' : '-' ∉ F'.data)
    (h : solidLine F T = solidLine F' T') : F = F' ∧ T = T' := by
  have h' := congrArg String.data h
  rw [solidLine_data, solidLine_data] at h'
  obtain ⟨h1, h2⟩ := append_marker_inj _ (marker_free hF) (marker_free hF') h'
  refine ⟨spineEq h1, String.ext ?_⟩
  simp only [List.cons.injEq, true_and] at h2
  exact List.append_cancel_right h2

lemma dashedLine_inj {F T F' T' : String} (hF : '-' ∉ F.data) (hF' : '-' ∉ F'.data)
    (h : dashedLine F T = dashedLine F' T') : F = F' ∧ T = T' := by
  have h' := congrArg String.data h
  rw [dashedLine_data, dashedLine_data] at h'
  obtain ⟨h1, h2⟩ := append_marker_inj _ (marker_free hF) (marker_free hF') h'
  refine ⟨spineEq h1, String.ext ?_⟩
  simp only [List.cons.injEq, true_and] at h2
  exact List.append_cancel_right h2

lemma solidLine_ne_dashedLine {F T F' T' : String}
    (hF : '-' ∉ F.data) (hF' : '-' ∉ F'.data) :
    solidLine F T ≠ dashedLine F' T' := by
  intro h
  have h' := congrArg String.data h
  rw [solidLine_data, dashedLine_data] at h'
  obtain ⟨-, h2⟩ := append_marker_inj _ (marker_free hF) (marker_free hF') h'
  simp at h2

/-! ### Behaviour of the edge-emitting loops -/

lemma emitEdge_eq (arrow : String) (st : MState) (f t : String) :
    emitEdge arrow st f t
      = if edgeKey f t ∈ st.seen then st
        else ⟨st.out ++ [arrowLine f arrow t], st.seen ++ [edgeKey f t]⟩ := by
  unfold emitEdge
  by_cases h : edgeKey f t ∈ st.seen
  · rw [if_pos (by simpa using h), if_pos h]
  · rw [if_neg (by simpa using h), if_neg h]

lemma emitEdge_seen_mem (arrow : String) (st : MState) (f t : String) :
    edgeKey f t ∈ (emitEdge arrow st f t).seen := by
  rw [emitEdge_eq]
  split
  · assumption
  · simp

lemma emitEdge_seen_mono {k : String} (arrow : String) (st : MState) (f t : String)
    (h : k ∈ st.seen) : k ∈ (emitEdge arrow st f t).seen := by
  rw [emitEdge_eq]
  split
  · exact h
  · simp [h]

lemma emitEdge_out_mono {l : String} (arrow : String) (st : MState) (f t : String)
    (h : l ∈ st.out) : l ∈ (emitEdge arrow st f t).out := by
  rw [emitEdge_eq]
  split
  · exact h
  · simp [h]

lemma processToList_cons (idMap : String → Option String) (arrow f t : String)
    (ts : List String) (st : MState) :
    processToList idMap arrow f (t :: ts) st
      = processToList idMap arrow f ts
          (match idMap t with
           | none => st
           | some T => emitEdge arrow st f T) := rfl

lemma processEdges_cons (idMap : String → Option String) (arrow : String)
    (e : String × List String) (es : List (String × List String)) (st : MState) :
    processEdges idMap arrow (e :: es) st
      = processEdges idMap arrow es
          (match idMap e.1 with
           | none => st
           | some F => processToList idMap arrow F e.2 st) := rfl

/-- Preservation of a state predicate through the inner target loop.  The
single hypothesis is closure of `P` under one guarded emission whose target
ID lies in the range of `idMap`. -/
lemma processToList_pres {P : MState → Prop} {idMap : String → Option String}
    {arrow f : String}
    (hstep : ∀ st T, (∃ k, idMap k = some T) → P st → P (emitEdge arrow st f T)) :
    ∀ (ts : List String) (st : MState), P st → P (processToList idMap arrow f ts st) := by
  intro ts
  induction ts with
  | nil => intro st h; exact h
  | cons t ts ih =>
      intro st h
      rw [processToList_cons]
      cases hm : idMap t with
      | none => exact ih st h
      | some T => exact ih _ (hstep st T ⟨t, hm⟩ h)

/-- Preservation of a state predicate through an edge-map loop. -/
lemma processEdges_pres {P : MState → Prop} {idMap : String → Option String}
    {arrow : String}
    (hstep : ∀ st F T, (∃ k, idMap k = some F) → (∃ k, idMap k = some T) →
      P st → P (emitEdge arrow st F T)) :
    ∀ (edges : List (String × List String)) (st : MState),
      P st → P (processEdges idMap arrow edges st) := by
  intro edges
  induction edges with
  | nil => intro st h; exact h
  | cons e es ih =>
      intro st h
      rw [processEdges_cons]
      cases hm : idMap e.1 with
      | none => exact ih st h
      | some F =>
          exact ih _ (processToList_pres
            (fun st T hT hP => hstep st F T ⟨e.1, hm⟩ hT hP) e.2 st h)

/-- Preservation of a state predicate through the branch loop (all branch
edges are emitted with the solid arrow). -/
lemma processBranches_pres {P : MState → Prop} {idMap : String → Option String}
    (hstep : ∀ st F T, (∃ k, idMap k = some F) → (∃ k, idMap k = some T) →
      P st → P (emitEdge "-->" st F T)) :
    ∀ (branches : List (String × List GraphBranch)) (st : MState),
      P st → P (processBranches idMap branches st) := by
  intro branches
  induction branches with
  | nil => intro st h; exact h
  | cons b bs ih =>
      intro st h
      show P (processBranches idMap bs _)
      by_cases hemp : b.2.isEmpty
      · simpa [processBranches, hemp] using ih st h
      · cases hm : idMap b.1 with
        | none => simpa [processBranches, hemp, hm] using ih st h
        | some F =>
            have hinner : ∀ (bl : List GraphBranch) (st : MState), P st →
                P (bl.foldl (fun st br =>
                    if br.endNodes.isEmpty then st
                    else processToList idMap "-->" F br.endNodes st) st) := by
              intro bl
              induction bl with
              | nil => intro st h; exact h
              | cons br brs ihb =>
                  intro st h
                  show P (brs.foldl _ _)
                  by_cases he : br.endNodes.isEmpty
                  · simpa [he] using ihb st h
                  · simpa [he] using
                      ihb _ (processToList_pres
                        (fun st T hT hP => hstep st F T ⟨b.1, hm⟩ hT hP) br.endNodes st h)
            simpa [processBranches, hemp, hm] using ih _ (hinner b.2 st h)

/-- After the target loop has processed a target with a known ID, the
corresponding edge key is in the seen set. -/
lemma processToList_key_mem {idMap : String → Option String} {arrow f t T : String}
    (hT : idMap t = some T) :
    ∀ (ts : List String), t ∈ ts → ∀ st : MState,
      edgeKey f T ∈ (processToList idMap arrow f ts st).seen := by
  intro ts
  induction ts with
  | nil => intro h; cases h
  | cons u ts ih =>
      intro hmem st
      rw [processToList_cons]
      rcases List.mem_cons.mp hmem with rfl | hmem'
      · rw [hT]
        exact processToList_pres
          (fun st T' _ h => emitEdge_seen_mono arrow st f T' h) ts _
          (emitEdge_seen_mem arrow st f T)
      · cases hm : idMap u with
        | none => exact ih hmem' st
        | some U => exact ih hmem' (emitEdge arrow st f U)

/-- After the edge-map loop has processed an edge with known endpoint IDs,
the corresponding edge key is in the seen set. -/
lemma processEdges_key_mem {idMap : String → Option String} {arrow f F T : String}
    {ts : List String} {t : String}
    (hf : idMap f = some F) (hT : idMap t = some T) (ht : t ∈ ts) :
    ∀ (edges : List (String × List String)), (f, ts) ∈ edges → ∀ st : MState,
      edgeKey F T ∈ (processEdges idMap arrow edges st).seen := by
  intro edges
  induction edges with
  | nil => intro h; cases h
  | cons e es ih =>
      intro hmem st
      rw [processEdges_cons]
      rcases List.mem_cons.mp hmem with rfl | hmem'
      · rw [hf]
        exact processEdges_pres
          (fun st F' T' _ _ h => emitEdge_seen_mono arrow st F' T' h) es _
          (processToList_key_mem hT ts ht st)
      · cases hm : idMap e.1 with
        | none => exact ih hmem' st
        | some Fe => exact ih hmem' (processToList idMap arrow Fe e.2 st)

/-! ### The duplicate-edge invariant -/

/-- `l` is the (solid or dashed) edge line of the endpoint pair `(F, T)`. -/
def matchesPair (F T l : String) : Bool :=
  l == solidLine F T || l == dashedLine F T

lemma matchesPair_iff {F T l : String} :
    matchesPair F T l = true ↔ l = solidLine F T ∨ l = dashedLine F T := by
  simp [matchesPair]

lemma goodID_range {info : GraphInfo} {F : String}
    (h : ∃ k, idMapLookup info k = some F) : goodID F := by
  obtain ⟨k, hk⟩ := h
  exact goodID_idMapLookup hk

/-- The loop invariant: an endpoint pair of valid IDs has exactly one edge
line in the buffer exactly when its key is in `seenEdges`, and every
buffered edge line is the edge line of some pair of valid IDs. -/
structure Inv (st : MState) : Prop where
  count : ∀ F T, goodID F → goodID T →
      st.out.countP (matchesPair F T) = (if edgeKey F T ∈ st.seen then 1 else 0)
  shape : ∀ l ∈ st.out, ∃ F T, goodID F ∧ goodID T ∧
      (l = solidLine F T ∨ l = dashedLine F T)

lemma Inv_init : Inv ⟨[], []⟩ := by
  constructor
  · intro F T _ _
    simp
  · intro l hl
    cases hl

lemma matchesPair_arrowLine_false {arrow F T F' T' : String}
    (ha : arrow = "-->" ∨ arrow = "-.->")
    (hF : goodID F) (_hT : goodID T) (hF' : goodID F') (_hT' : goodID T')
    (hne : ¬(F' = F ∧ T' = T)) :
    matchesPair F' T' (arrowLine F arrow T) = false := by
  by_contra hmt
  rw [Bool.not_eq_false] at hmt
  rcases matchesPair_iff.mp hmt with he | he <;> rcases ha with rfl | rfl
  · obtain ⟨h1, h2⟩ := solidLine_inj hF.1 hF'.1 he
    exact hne ⟨h1.symm, h2.symm⟩
  · exact solidLine_ne_dashedLine hF'.1 hF.1 he.symm
  · exact solidLine_ne_dashedLine hF.1 hF'.1 he
  · obtain ⟨h1, h2⟩ := dashedLine_inj hF.1 hF'.1 he
    exact hne ⟨h1.symm, h2.symm⟩

lemma Inv_emitEdge {arrow : String} (ha : arrow = "-->" ∨ arrow = "-.->")
    {st : MState} {F T : String} (hF : goodID F) (hT : goodID T) (h : Inv st) :
    Inv (emitEdge arrow st F T) := by
  rw [emitEdge_eq]
  split
  · exact h
  · next hnot =>
    have hline : arrowLine F arrow T = solidLine F T ∨ arrowLine F arrow T = dashedLine F T := by
      rcases ha with rfl | rfl
      · exact Or.inl rfl
      · exact Or.inr rfl
    constructor
    · intro F' T' hF' hT'
      show (st.out ++ [arrowLine F arrow T]).countP (matchesPair F' T')
          = if edgeKey F' T' ∈ st.seen ++ [edgeKey F T] then 1 else 0
      rw [List.countP_append]
      by_cases hpair : F' = F ∧ T' = T
      · obtain ⟨rfl, rfl⟩ := hpair
        have h0 : st.out.countP (matchesPair F' T') = 0 := by
          rw [h.count F' T' hF' hT', if_neg hnot]
        have h1 : List.countP (matchesPair F' T') [arrowLine F' arrow T'] = 1 := by
          have := matchesPair_iff.mpr hline
          simp [List.countP_cons, this]
        rw [h0, h1, if_pos (List.mem_append_right _ (List.mem_singleton.mpr rfl))]
      · have hm0 : List.countP (matchesPair F' T') [arrowLine F arrow T] = 0 := by
          have := matchesPair_arrowLine_false ha hF hT hF' hT' hpair
          simp [List.countP_cons, this]
        have hseeniff : (edgeKey F' T' ∈ st.seen ++ [edgeKey F T])
            ↔ edgeKey F' T' ∈ st.seen := by
          simp only [List.mem_append, List.mem_singleton]
          constructor
          · rintro (hmem | hkeq)
            · exact hmem
            · exact absurd (edgeKey_inj hF'.1 hF.1 hkeq) hpair
          · exact Or.inl
        rw [hm0, h.count F' T' hF' hT', Nat.add_zero, if_congr hseeniff rfl rfl]
    · intro l hl
      rcases List.mem_append.mp hl with hl | hl
      · exact h.shape l hl
      · exact ⟨F, T, hF, hT, by rw [List.mem_singleton.mp hl]; exact hline⟩

lemma Inv_controlState (info : GraphInfo) : Inv (controlState info) :=
  processEdges_pres
    (fun _st F T hF hT h =>
      Inv_emitEdge (Or.inl rfl) (goodID_range hF) (goodID_range hT) h)
    info.Edges _ Inv_init

lemma Inv_dataState (info : GraphInfo) : Inv (dataState info) :=
  processEdges_pres
    (fun _st F T hF hT h =>
      Inv_emitEdge (Or.inr rfl) (goodID_range hF) (goodID_range hT) h)
    info.DataEdges _ (Inv_controlState info)

lemma Inv_edgeSection (info : GraphInfo) : Inv (edgeSection info) :=
  processBranches_pres
    (fun _st F T hF hT h =>
      Inv_emitEdge (Or.inl rfl) (goodID_range hF) (goodID_range hT) h)
    info.Branches _ (Inv_dataState info)

/-- Every line in the buffer after the control-flow loop is a solid line. -/
def AllSolid (st : MState) : Prop :=
  ∀ l ∈ st.out, ∃ F T, goodID F ∧ goodID T ∧ l = solidLine F T

lemma allSolid_controlState (info : GraphInfo) : AllSolid (controlState info) := by
  refine processEdges_pres (P := AllSolid) ?_ info.Edges _ ?_
  · intro st F T hF hT h
    rw [emitEdge_eq]
    split
    · exact h
    · intro l hl
      rcases List.mem_append.mp hl with hl | hl
      · exact h l hl
      · exact ⟨F, T, goodID_range hF, goodID_range hT, List.mem_singleton.mp hl⟩
  · intro l hl
    cases hl

/-- Every control-flow edge with known endpoints has its solid line in the
buffer after the control-flow loop. -/
lemma solid_mem_controlState {info : GraphInfo} {f t F T : String} {ts : List String}
    (he : (f, ts) ∈ info.Edges) (ht : t ∈ ts)
    (hf : idMapLookup info f = some F) (hT : idMapLookup info t = some T) :
    solidLine F T ∈ (controlState info).out := by
  have hFg := goodID_idMapLookup hf
  have hTg := goodID_idMapLookup hT
  have hkey : edgeKey F T ∈ (controlState info).seen :=
    processEdges_key_mem hf hT ht info.Edges he ⟨[], []⟩
  have hcount := (Inv_controlState info).count F T hFg hTg
  rw [if_pos hkey] at hcount
  have hpos : 0 < (controlState info).out.countP (matchesPair F T) := by omega
  obtain ⟨l, hl, hpl⟩ := List.countP_pos_iff.mp hpos
  obtain ⟨F', T', hF', _hT', hl'⟩ := allSolid_controlState info l hl
  rcases matchesPair_iff.mp hpl with hsol | hdash
  · exact hsol ▸ hl
  · rw [hl'] at hdash
    exact absurd hdash (solidLine_ne_dashedLine hF'.1 hFg.1)

/-- The buffer only grows across the data-edge and branch loops. -/
lemma out_mono_edgeSection {info : GraphInfo} {l : String}
    (h : l ∈ (controlState info).out) : l ∈ (edgeSection info).out := by
  have h2 : l ∈ (dataState info).out :=
    processEdges_pres (P := fun st => l ∈ st.out)
      (fun st F T _ _ hmem => emitEdge_out_mono _ st F T hmem)
      info.DataEdges _ h
  exact processBranches_pres (P := fun st => l ∈ st.out)
    (fun st F T _ _ hmem => emitEdge_out_mono _ st F T hmem)
    info.Branches _ h2

lemma out_mono_branches {info : GraphInfo} {l : String}
    (h : l ∈ (dataState info).out) : l ∈ (edgeSection info).out :=
  processBranches_pres (P := fun st => l ∈ st.out)
    (fun st F T _ _ hmem => emitEdge_out_mono _ st F T hmem)
    info.Branches _ h

/-- Every data edge with known endpoints whose key was not seen during the
control-flow loop has its dashed line in the buffer after the data loop. -/
lemma dashed_mem_dataState {info : GraphInfo} {f t F T : String} {ts : List String}
    (he : (f, ts) ∈ info.DataEdges) (ht : t ∈ ts)
    (hf : idMapLookup info f = some F) (hT : idMapLookup info t = some T)
    (hnot : edgeKey F T ∉ (controlState info).seen) :
    dashedLine F T ∈ (dataState info).out := by
  have hFg := goodID_idMapLookup hf
  have hP : edgeKey F T ∈ (dataState info).seen → dashedLine F T ∈ (dataState info).out := by
    refine processEdges_pres
      (P := fun st => edgeKey F T ∈ st.seen → dashedLine F T ∈ st.out)
      ?_ info.DataEdges _ (fun hmem => absurd hmem hnot)
    intro st F' T' hF' _hT' hPst
    rw [emitEdge_eq]
    split
    · exact hPst
    · intro hmem
      rcases List.mem_append.mp hmem with hmem | hmem
      · exact List.mem_append_left _ (hPst hmem)
      · obtain ⟨rfl, rfl⟩ := edgeKey_inj hFg.1 (goodID_range hF').1
          (List.mem_singleton.mp hmem)
        exact List.mem_append_right _ (List.mem_singleton.mpr rfl)
  exact hP (processEdges_key_mem hf hT ht info.DataEdges he (controlState info))

/-- If the key of a valid ID pair was seen during the control-flow loop, no
dashed line for that pair is ever emitted. -/
lemma dashed_not_mem_edgeSection {info : GraphInfo} {F T : String}
    (hF : goodID F) (hT : goodID T)
    (hseen : edgeKey F T ∈ (controlState info).seen) :
    dashedLine F T ∉ (edgeSection info).out := by
  have hstep : ∀ (arrow : String), arrow = "-->" ∨ arrow = "-.->" →
      ∀ (st : MState) (F' T' : String),
        (∃ k, idMapLookup info k = some F') → (∃ k, idMapLookup info k = some T') →
        (edgeKey F T ∈ st.seen ∧ dashedLine F T ∉ st.out) →
        (edgeKey F T ∈ (emitEdge arrow st F' T').seen
          ∧ dashedLine F T ∉ (emitEdge arrow st F' T').out) := by
    intro arrow ha st F' T' hF' _hT' hP
    obtain ⟨hs, ho⟩ := hP
    rw [emitEdge_eq]
    split
    · exact ⟨hs, ho⟩
    · next hnm =>
      refine ⟨List.mem_append_left _ hs, ?_⟩
      intro hmem
      rcases List.mem_append.mp hmem with hmem | hmem
      · exact ho hmem
      · have hl : dashedLine F T = arrowLine F' arrow T' := List.mem_singleton.mp hmem
        rcases ha with rfl | rfl
        · exact solidLine_ne_dashedLine (goodID_range hF').1 hF.1 hl.symm
        · obtain ⟨rfl, rfl⟩ := dashedLine_inj hF.1 (goodID_range hF').1 hl
          exact hnm hs
  have base : edgeKey F T ∈ (controlState info).seen
      ∧ dashedLine F T ∉ (controlState info).out := by
    refine ⟨hseen, ?_⟩
    intro hmem
    obtain ⟨F', T', hF', _hT', hl⟩ := allSolid_controlState info _ hmem
    exact solidLine_ne_dashedLine hF'.1 hF.1 hl.symm
  have hdata := processEdges_pres
    (P := fun st => edgeKey F T ∈ st.seen ∧ dashedLine F T ∉ st.out)
    (hstep "-.->" (Or.inr rfl)) info.DataEdges _ base
  exact (processBranches_pres
    (P := fun st => edgeKey F T ∈ st.seen ∧ dashedLine F T ∉ st.out)
    (hstep "-->" (Or.inl rfl)) info.Branches _ hdata).2

/-! ### The non-edge lines of the output are not edge lines -/

lemma solidLine_head (F T : String) : (solidLine F T).data.head? = some ' ' := by
  rw [solidLine_data]
  rfl

lemma dashedLine_head (F T : String) : (dashedLine F T).data.head? = some ' ' := by
  rw [dashedLine_data]
  rfl

lemma matchesPair_false_of_head {s : String} (h : s.data.head? ≠ some ' ')
    (F T : String) : matchesPair F T s = false := by
  by_contra hmt
  rw [Bool.not_eq_false] at hmt
  rcases matchesPair_iff.mp hmt with he | he
  · exact h (by rw [he, solidLine_head])
  · exact h (by rw [he, dashedLine_head])

lemma bracket_not_in_solidLine {F T : String} (hF : '[' ∉ F.data) (hT : '[' ∉ T.data) :
    '[' ∉ (solidLine F T).data := by
  rw [solidLine_data]
  intro h
  rcases List.mem_append.mp h with h | h
  · simp only [List.mem_cons] at h
    rcases h with h | h | h | h | h
    · exact absurd h (by decide)
    · exact absurd h (by decide)
    · exact absurd h (by decide)
    · exact absurd h (by decide)
    · rcases List.mem_append.mp h with h | h
      · exact hF h
      · exact absurd h (by decide)
  · simp only [List.mem_cons] at h
    rcases h with h | h | h | h | h
    · exact absurd h (by decide)
    · exact absurd h (by decide)
    · exact absurd h (by decide)
    · exact absurd h (by decide)
    · rcases List.mem_append.mp h with h | h
      · exact hT h
      · exact absurd h (by decide)

lemma bracket_not_in_dashedLine {F T : String} (hF : '[' ∉ F.data) (hT : '[' ∉ T.data) :
    '[' ∉ (dashedLine F T).data := by
  rw [dashedLine_data]
  intro h
  rcases List.mem_append.mp h with h | h
  · simp only [List.mem_cons] at h
    rcases h with h | h | h | h | h
    · exact absurd h (by decide)
    · exact absurd h (by decide)
    · exact absurd h (by decide)
    · exact absurd h (by decide)
    · rcases List.mem_append.mp h with h | h
      · exact hF h
      · exact absurd h (by decide)
  · simp only [List.mem_cons] at h
    rcases h with h | h | h | h | h | h
    · exact absurd h (by decide)
    · exact absurd h (by decide)
    · exact absurd h (by decide)
    · exact absurd h (by decide)
    · exact absurd h (by decide)
    · rcases List.mem_append.mp h with h | h
      · exact hT h
      · exact absurd h (by decide)

lemma matchesPair_false_of_bracket {s : String} (hb : '[' ∈ s.data)
    {F T : String} (hF : goodID F) (hT : goodID T) : matchesPair F T s = false := by
  by_contra hmt
  rw [Bool.not_eq_false] at hmt
  rcases matchesPair_iff.mp hmt with he | he
  · exact bracket_not_in_solidLine hF.2 hT.2 (he ▸ hb)
  · exact bracket_not_in_dashedLine hF.2 hT.2 (he ▸ hb)

lemma bracket_in_nodeLine (info : GraphInfo) (p : String × GraphNodeInfo) :
    '[' ∈ (nodeLine info p).data := by
  show '[' ∈ ("    " ++ (idMapLookup info p.1).getD ""
      ++ "[\"" ++ p.1 ++ ": "
      ++ (if p.2.Component = "" then "Node" else p.2.Component) ++ "\"]\n").data
  simp only [String.data_append, List.mem_append]
  have hb : '[' ∈ "[\"".data := by decide
  tauto

/-- None of the header lines, node declaration lines or the blank separator
line is an edge line of a valid ID pair. -/
lemma countP_prefix_zero (info : GraphInfo) {F T : String}
    (hF : goodID F) (hT : goodID T) :
    (["graph TD\n", "    StartNode([Start])\n", "    EndNode([End])\n"]
      ++ info.Nodes.map (nodeLine info) ++ ["\n"]).countP (matchesPair F T) = 0 := by
  rw [List.countP_eq_zero]
  intro l hl
  rcases List.mem_append.mp hl with hl | hl
  · rcases List.mem_append.mp hl with hl | hl
    · simp only [List.mem_cons, List.not_mem_nil, or_false] at hl
      rcases hl with rfl | rfl | rfl
      · simp [matchesPair_false_of_head (s := "graph TD\n") (by decide) F T]
      · simp [matchesPair_false_of_bracket (s := "    StartNode([Start])\n") (by decide) hF hT]
      · simp [matchesPair_false_of_bracket (s := "    EndNode([End])\n") (by decide) hF hT]
    · obtain ⟨p, _, rfl⟩ := List.mem_map.mp hl
      simp [matchesPair_false_of_bracket (bracket_in_nodeLine info p) hF hT]
  · rcases List.mem_singleton.mp hl with rfl
    simp [matchesPair_false_of_head (s := "\n") (by decide) F T]

/-- The count of edge lines of a valid pair over the whole output is the
count over the edge section. -/
lemma countP_lines (info : GraphInfo) {F T : String}
    (hF : goodID F) (hT : goodID T) :
    (GenerateMermaidFlowchartLines info).countP (matchesPair F T)
      = (edgeSection info).out.countP (matchesPair F T) := by
  show ((["graph TD\n", "    StartNode([Start])\n", "    EndNode([End])\n"]
      ++ info.Nodes.map (nodeLine info) ++ ["\n"]) ++ (edgeSection info).out).countP
        (matchesPair F T) = _
  rw [List.countP_append, countP_prefix_zero info hF hT, Nat.zero_add]

/-- Membership in the whole output of a line that is not an edge line of a
valid pair, and conversely. -/
lemma mem_lines_of_mem_out {info : GraphInfo} {l : String}
    (h : l ∈ (edgeSection info).out) : l ∈ GenerateMermaidFlowchartLines info := by
  unfold GenerateMermaidFlowchartLines
  exact List.mem_append_right _ h

lemma not_mem_lines_dashed {info : GraphInfo} {F T : String}
    (hF : goodID F) (hT : goodID T)
    (h : dashedLine F T ∉ (edgeSection info).out) :
    dashedLine F T ∉ GenerateMermaidFlowchartLines info := by
  intro hmem
  unfold GenerateMermaidFlowchartLines at hmem
  rcases List.mem_append.mp hmem with hmem | hmem
  · have h0 := countP_prefix_zero info hF hT
    rw [List.countP_eq_zero] at h0
    exact h0 _ hmem (by simp [matchesPair])
  · exact h hmem

/-- A sanity check of the embedding on a concrete graph: the generator output
on a two-node chain with one control edge and one data edge. -/
lemma generate_concrete_check :
    GenerateMermaidFlowchart
      ⟨[("a", ⟨""⟩), ("b", ⟨"Lambda"⟩)], [("start", ["a"]), ("a", ["b"])],
        [("a", ["b"])], []⟩
      = "graph TD\n    StartNode([Start])\n    EndNode([End])\n    N_a[\"a: Node\"]\n    N_b[\"b: Lambda\"]\n\n    StartNode --> N_a\n    N_a --> N_b\n" := by
  decide

/-- A two-node graph whose single edge pair appears both as a control edge
and as a data edge: the data edge produces no dashed line. -/
def overlapInfo : GraphInfo :=
  ⟨[("a", ⟨""⟩), ("b", ⟨""⟩)], [("a", ["b"])], [("a", ["b"])], []⟩

end GraphMermaid

/-- C1, counterexample: on `overlapInfo` the data edge `("a", "b")` has known
endpoints `N_a` and `N_b`, yet the output contains no dashed line
`N_a -.-> N_b` — the dashed line is suppressed because the same pair is also
a control-flow edge, contradicting the claim that a dashed arrow line is
emitted for every data edge whose endpoints are known. -/
theorem c1_dashed_line_counterexample :
    ("a", ["b"]) ∈ GraphMermaid.overlapInfo.DataEdges
    ∧ GraphMermaid.idMapLookup GraphMermaid.overlapInfo "a" = some "N_a"
    ∧ GraphMermaid.idMapLookup GraphMermaid.overlapInfo "b" = some "N_b"
    ∧ GraphMermaid.dashedLine "N_a" "N_b"
        ∉ GraphMermaid.GenerateMermaidFlowchartLines GraphMermaid.overlapInfo := by
  decide

/-- C1 (amended): for every GraphInfo, `GenerateMermaidFlowchart` returns a
string that begins with the line `graph TD`, declares the reserved start and
end nodes as rounded rectangles via the lines `StartNode([Start])` and
`EndNode([End])`, emits one solid arrow line `A --> B` for every control-flow
edge in `info.Edges` whose endpoints are known, and one dashed arrow line
`A -.-> B` for every data edge in `info.DataEdges` whose endpoints are known
and whose endpoint pair was not already recorded while emitting the
control-flow edges. -/
theorem c1_generateMermaidFlowchart_amended (info : GraphMermaid.GraphInfo) :
    (∃ rest, GraphMermaid.GenerateMermaidFlowchart info = "graph TD\n" ++ rest)
    ∧ "    StartNode([Start])\n" ∈ GraphMermaid.GenerateMermaidFlowchartLines info
    ∧ "    EndNode([End])\n" ∈ GraphMermaid.GenerateMermaidFlowchartLines info
    ∧ (∀ f ts t F T, (f, ts) ∈ info.Edges → t ∈ ts →
        GraphMermaid.idMapLookup info f = some F →
        GraphMermaid.idMapLookup info t = some T →
        GraphMermaid.solidLine F T ∈ GraphMermaid.GenerateMermaidFlowchartLines info)
    ∧ (∀ f ts t F T, (f, ts) ∈ info.DataEdges → t ∈ ts →
        GraphMermaid.idMapLookup info f = some F →
        GraphMermaid.idMapLookup info t = some T →
        GraphMermaid.edgeKey F T ∉ (GraphMermaid.controlState info).seen →
        GraphMermaid.dashedLine F T ∈ GraphMermaid.GenerateMermaidFlowchartLines info) := by
  refine ⟨?_, ?_, ?_, ?_, ?_⟩
  · exact ⟨String.join (["    StartNode([Start])\n", "    EndNode([End])\n"]
      ++ info.Nodes.map (GraphMermaid.nodeLine info) ++ ["\n"]
      ++ (GraphMermaid.edgeSection info).out),
      strJoinCons _ _⟩
  · simp [GraphMermaid.GenerateMermaidFlowchartLines]
  · simp [GraphMermaid.GenerateMermaidFlowchartLines]
  · intro f ts t F T he ht hf hT
    exact GraphMermaid.mem_lines_of_mem_out
      (GraphMermaid.out_mono_edgeSection
        (GraphMermaid.solid_mem_controlState he ht hf hT))
  · intro f ts t F T he ht hf hT hnot
    exact GraphMermaid.mem_lines_of_mem_out
      (GraphMermaid.out_mono_branches
        (GraphMermaid.dashed_mem_dataState he ht hf hT hnot))

/-- C1, witness: the amended theorem applied to the concrete graph
`overlapInfo`, whose control edge yields the solid line `N_a --> N_b`. -/
theorem c1_witness :
    (∃ rest, GraphMermaid.GenerateMermaidFlowchart GraphMermaid.overlapInfo
        = "graph TD\n" ++ rest)
    ∧ GraphMermaid.solidLine "N_a" "N_b"
        ∈ GraphMermaid.GenerateMermaidFlowchartLines GraphMermaid.overlapInfo :=
  ⟨(c1_generateMermaidFlowchart_amended GraphMermaid.overlapInfo).1,
   (c1_generateMermaidFlowchart_amended GraphMermaid.overlapInfo).2.2.2.1
     "a" ["b"] "b" "N_a" "N_b" (by decide) (by decide) (by decide) (by decide)⟩

/-- C2: for every GraphInfo, `GenerateMermaidFlowchart` from
`src/compose/graph_mermaid.go` and `GenerateMermaidFlowchart` from
`src/unnamed/part_000` return identical output strings. -/
theorem c2_generateMermaidFlowchart_extensional_eq (info : GraphMermaid.GraphInfo) :
    GraphMermaid.GenerateMermaidFlowchart info = Part000.GenerateMermaidFlowchart info := rfl

/-- C6: `GenerateMermaidFlowchart` never emits two edge lines with the same
endpoint pair of valid node IDs, and when a pair appears both in
`info.Edges` and `info.DataEdges` (with known endpoints) only the solid
control-flow line is emitted while the dashed data-edge line is
suppressed. -/
theorem c6_no_duplicate_edge_lines (info : GraphMermaid.GraphInfo) :
    (∀ F T, GraphMermaid.goodID F → GraphMermaid.goodID T →
      (GraphMermaid.GenerateMermaidFlowchartLines info).countP
        (GraphMermaid.matchesPair F T) ≤ 1)
    ∧ (∀ f ts ds t F T, (f, ts) ∈ info.Edges → t ∈ ts →
        (f, ds) ∈ info.DataEdges → t ∈ ds →
        GraphMermaid.idMapLookup info f = some F →
        GraphMermaid.idMapLookup info t = some T →
        GraphMermaid.solidLine F T ∈ GraphMermaid.GenerateMermaidFlowchartLines info
        ∧ GraphMermaid.dashedLine F T
            ∉ GraphMermaid.GenerateMermaidFlowchartLines info) := by
  constructor
  · intro F T hF hT
    rw [GraphMermaid.countP_lines info hF hT,
      (GraphMermaid.Inv_edgeSection info).count F T hF hT]
    split <;> omega
  · intro f ts ds t F T he ht _hd _htd hf hT
    have hkey : GraphMermaid.edgeKey F T ∈ (GraphMermaid.controlState info).seen :=
      GraphMermaid.processEdges_key_mem hf hT ht info.Edges he ⟨[], []⟩
    exact ⟨GraphMermaid.mem_lines_of_mem_out
        (GraphMermaid.out_mono_edgeSection
          (GraphMermaid.solid_mem_controlState he ht hf hT)),
      GraphMermaid.not_mem_lines_dashed
        (GraphMermaid.goodID_idMapLookup hf) (GraphMermaid.goodID_idMapLookup hT)
        (GraphMermaid.dashed_not_mem_edgeSection
          (GraphMermaid.goodID_idMapLookup hf) (GraphMermaid.goodID_idMapLookup hT) hkey)⟩

/-- C6, witness: on `overlapInfo` the pair `("a", "b")` is both a control and
a data edge; only the solid line is present, the dashed one is absent, and
the pair has at most one edge line. -/
theorem c6_witness :
    GraphMermaid.solidLine "N_a" "N_b"
        ∈ GraphMermaid.GenerateMermaidFlowchartLines GraphMermaid.overlapInfo
    ∧ GraphMermaid.dashedLine "N_a" "N_b"
        ∉ GraphMermaid.GenerateMermaidFlowchartLines GraphMermaid.overlapInfo
    ∧ (GraphMermaid.GenerateMermaidFlowchartLines GraphMermaid.overlapInfo).countP
        (GraphMermaid.matchesPair "N_a" "N_b") ≤ 1 :=
  ⟨((c6_no_duplicate_edge_lines GraphMermaid.overlapInfo).2
      "a" ["b"] ["b"] "b" "N_a" "N_b"
      (by decide) (by decide) (by decide) (by decide) (by decide) (by decide)).1,
   ((c6_no_duplicate_edge_lines GraphMermaid.overlapInfo).2
      "a" ["b"] ["b"] "b" "N_a" "N_b"
      (by decide) (by decide) (by decide) (by decide) (by decide) (by decide)).2,
   (c6_no_duplicate_edge_lines GraphMermaid.overlapInfo).1
      "N_a" "N_b" ⟨by decide, by decide⟩ ⟨by decide, by decide⟩⟩

namespace Adk

/-- A run context as manipulated by the interrupted-run-context list: only
its `RunPath` is read by the operations modelled here (`RootInput` and the
`Session` back-pointer are opaque to them and omitted). -/
structure runContext where
  RunPath : List String
deriving DecidableEq, Repr

/-- Modelled from the spec: `belongToRunPath` is not among the provided
sources.  Section 5 of the specification states that `replace-interrupt-ctx`
"removes entries whose run-path is a prefix of the new one", so
`belongToRunPath runPath p` holds exactly when `p` is a prefix of
`runPath`. -/
def belongToRunPath (runPath p : List String) : Bool :=
  p.isPrefixOf runPath

/-- The removal loop of `replaceInterruptRunCtx`: the source iterates with an
index, removing matching entries in place
(`append(rs.interruptRunCtxs[:i], rs.interruptRunCtxs[i+1:]...)`) and
stepping the index back after a removal; structurally that loop keeps
exactly the entries the predicate rejects, in their original order. -/
def removeBelonging (newPath : List String) : List runContext → List runContext
  | [] => []
  | rc :: rest =>
      if belongToRunPath newPath rc.RunPath then removeBelonging newPath rest
      else rc :: removeBelonging newPath rest

/-- Go map lookup `m[k]` on the association-list model. -/
def mapLookup {V : Type} (m : List (String × V)) (k : String) : Option V :=
  (m.find? (fun p => p.1 == k)).map (fun p => p.2)

/-- Go map assignment `m[k] = v`: replace the existing entry or add one. -/
def mapInsert {V : Type} (m : List (String × V)) (k : String) (v : V) :
    List (String × V) :=
  if m.any (fun p => p.1 == k) then
    m.map (fun p => if p.1 == k then (k, v) else p)
  else m ++ [(k, v)]

/-- The copy loop of `getValues`:
`values := make(map[string]any, len(rs.Values)); for k, v := range rs.Values { values[k] = v }`. -/
def copyValues {V : Type} (m : List (String × V)) : List (String × V) :=
  m.foldl (fun acc p => mapInsert acc p.1 p.2) []

/-- The per-run session: the value bag (a Go `map[string]any`, over an
abstract value type `V`) and the ordered interrupted-run-context list.  The
mutex only serialises access and is not modelled. -/
structure runSession (V : Type) where
  Values : List (String × V)
  interruptRunCtxs : List runContext

/-- `getValues`: copies `rs.Values` into a fresh map and returns the copy. -/
def runSession.getValues {V : Type} (rs : runSession V) : List (String × V) :=
  copyValues rs.Values

/-- `setValue`: `rs.Values[key] = value`. -/
def runSession.setValue {V : Type} (rs : runSession V) (k : String) (v : V) :
    runSession V :=
  { rs with Values := mapInsert rs.Values k v }

/-- `getValue`: `value, ok := rs.Values[key]`. -/
def runSession.getValue {V : Type} (rs : runSession V) (k : String) :
    Option V × Bool :=
  match mapLookup rs.Values k with
  | some v => (some v, true)
  | none => (none, false)

/-- `replaceInterruptRunCtx`: remove the run contexts whose path belongs to
the new run context, then append the new run context. -/
def runSession.replaceInterruptRunCtx {V : Type} (rs : runSession V)
    (c : runContext) : runSession V :=
  { rs with interruptRunCtxs := removeBelonging c.RunPath rs.interruptRunCtxs ++ [c] }

/-- The run-context value carried by a Go context (`runCtxKey{}`): its
`Session` pointer may be nil. -/
structure ctxRunContext (V : Type) where
  RunPath : List String
  Session : Option (runSession V)

/-- `getRunCtx`: the type assertion on `ctx.Value(runCtxKey{})`, which fails
exactly when the context carries no run context. -/
def getRunCtx {V : Type} (ctx : Option (ctxRunContext V)) : Option (ctxRunContext V) :=
  ctx

/-- `getSession`: return `runCtx.Session` when a run context is present,
and nil otherwise. -/
def getSession {V : Type} (ctx : Option (ctxRunContext V)) : Option (runSession V) :=
  match getRunCtx ctx with
  | some rc => rc.Session
  | none => none

/-- `GetSessionValues`: an empty map without a session, otherwise the
snapshot copy. -/
def GetSessionValues {V : Type} (ctx : Option (ctxRunContext V)) : List (String × V) :=
  match getSession ctx with
  | none => []
  | some s => s.getValues

/-- `GetSessionValue`: `(nil, false)` without a session. -/
def GetSessionValue {V : Type} (ctx : Option (ctxRunContext V)) (k : String) :
    Option V × Bool :=
  match getSession ctx with
  | none => (none, false)
  | some s => s.getValue k

/-- `SetSessionValue`, returning the session state after the call: `none`
when there is no session (the call returns without storing anything),
otherwise the updated session. -/
def SetSessionValue {V : Type} (ctx : Option (ctxRunContext V)) (k : String) (v : V) :
    Option (runSession V) :=
  match getSession ctx with
  | none => none
  | some s => some (s.setValue k v)

/-- A heap of Go map objects; a reference (a Go `map[string]any` value) is
an index into the store.  This models the reference semantics of Go maps,
which is what makes "`getValues` returns a copy, not a live view"
observable. -/
structure MapStore (V : Type) where
  objs : List (List (String × V))

/-- Dereference a map reference. -/
def readRef {V : Type} (h : MapStore V) (r : Nat) : List (String × V) :=
  h.objs.getD r []

/-- Overwrite the object a reference points to. -/
def writeRef {V : Type} (h : MapStore V) (r : Nat) (m : List (String × V)) :
    MapStore V :=
  ⟨h.objs.set r m⟩

/-- `rs.getValues()` in the heap model: read the session's map object
(through `valuesRef`), copy it entry by entry into a freshly allocated
object, and return a reference to the fresh object. -/
def getValuesRef {V : Type} (h : MapStore V) (valuesRef : Nat) : MapStore V × Nat :=
  (⟨h.objs ++ [copyValues (readRef h valuesRef)]⟩, h.objs.length)

/-- A Go map assignment `m[k] = v` performed through a reference: used both
by `rs.setValue` (with `r` the session's `valuesRef`) and by a caller
mutating a map returned by `getValues`. -/
def mapAssignRef {V : Type} (h : MapStore V) (r : Nat) (k : String) (v : V) :
    MapStore V :=
  writeRef h r (mapInsert (readRef h r) k v)

/-- Go maps have duplicate-free key sets. -/
def nodupKeys {V : Type} (m : List (String × V)) : Prop :=
  (m.map (fun p => p.1)).Nodup

lemma copyValues_go {V : Type} :
    ∀ (m acc : List (String × V)),
      (∀ p ∈ m, acc.any (fun q => q.1 == p.1) = false) → nodupKeys m →
      m.foldl (fun acc p => mapInsert acc p.1 p.2) acc = acc ++ m := by
  intro m
  induction m with
  | nil => intro acc _ _; simp
  | cons p rest ih =>
      intro acc hdis hnd
      have hstep : mapInsert acc p.1 p.2 = acc ++ [p] := by
        rw [mapInsert, if_neg (by simp [hdis p (List.mem_cons_self p rest)]),
          Prod.mk.eta]
      have hnd' : nodupKeys rest := by
        have := hnd
        simp only [nodupKeys, List.map_cons, List.nodup_cons] at this
        exact this.2
      have hkey : p.1 ∉ rest.map (fun q => q.1) := by
        have := hnd
        simp only [nodupKeys, List.map_cons, List.nodup_cons] at this
        exact this.1
      have hdis' : ∀ q ∈ rest, (acc ++ [p]).any (fun r => r.1 == q.1) = false := by
        intro q hq
        rw [List.any_append]
        have h1 : acc.any (fun r => r.1 == q.1) = false :=
          hdis q (List.mem_cons_of_mem p hq)
        have h2 : (p.1 == q.1) = false := by
          rw [beq_eq_false_iff_ne]
          intro hpq
          exact hkey (hpq ▸ List.mem_map_of_mem (fun r => r.1) hq)
        simp [h1, h2]
      calc (p :: rest).foldl (fun acc p => mapInsert acc p.1 p.2) acc
          = rest.foldl (fun acc p => mapInsert acc p.1 p.2) (acc ++ [p]) := by
            rw [List.foldl_cons, hstep]
        _ = (acc ++ [p]) ++ rest := ih (acc ++ [p]) hdis' hnd'
        _ = acc ++ p :: rest := by simp

/-- Copying a Go map yields the same association list. -/
lemma copyValues_eq {V : Type} {m : List (String × V)} (h : nodupKeys m) :
    copyValues m = m := by
  have := copyValues_go m [] (by intro p _; rfl) h
  simpa [copyValues] using this

end Adk

namespace Adk

lemma readRef_writeRef_ne {V : Type} (h : MapStore V) {r r' : Nat} (hne : r ≠ r')
    (m : List (String × V)) : readRef (writeRef h r m) r' = readRef h r' := by
  simp [readRef, writeRef, List.getD_eq_getElem?_getD, List.getElem?_set_ne hne]

lemma readRef_writeRef_self {V : Type} (h : MapStore V) {r : Nat}
    (hr : r < h.objs.length) (m : List (String × V)) :
    readRef (writeRef h r m) r = m := by
  simp [readRef, writeRef, List.getD_eq_getElem?_getD, List.getElem?_set_self',
    List.getElem?_eq_getElem hr]

lemma readRef_alloc_old {V : Type} (h : MapStore V) {r : Nat}
    (hr : r < h.objs.length) (m : List (String × V)) :
    readRef ⟨h.objs ++ [m]⟩ r = readRef h r := by
  simp [readRef, List.getD_eq_getElem?_getD, List.getElem?_append_left hr]

lemma readRef_alloc_new {V : Type} (h : MapStore V) (m : List (String × V)) :
    readRef ⟨h.objs ++ [m]⟩ h.objs.length = m := by
  simp [readRef, List.getD_eq_getElem?_getD, List.getElem?_concat_length]

lemma removeBelonging_eq_filter (p : List String) :
    ∀ l : List runContext,
      removeBelonging p l = l.filter (fun rc => !(rc.RunPath.isPrefixOf p)) := by
  intro l
  induction l with
  | nil => rfl
  | cons rc rest ih =>
      cases hb : rc.RunPath.isPrefixOf p
      · simp [removeBelonging, belongToRunPath, hb, List.filter_cons, ih]
      · simp [removeBelonging, belongToRunPath, hb, List.filter_cons, ih]

end Adk

/-- C3: `replaceInterruptRunCtx c` removes from the session's
interrupted-run-context list exactly those entries whose run-path is a
prefix of `c`'s run-path, preserves the relative order of the remaining
entries, and appends `c` at the end. -/
theorem c3_replaceInterruptRunCtx_spec {V : Type} (rs : Adk.runSession V)
    (c : Adk.runContext) :
    (rs.replaceInterruptRunCtx c).interruptRunCtxs
      = rs.interruptRunCtxs.filter (fun rc => !(rc.RunPath.isPrefixOf c.RunPath))
          ++ [c] := by
  show Adk.removeBelonging c.RunPath rs.interruptRunCtxs ++ [c] = _
  rw [Adk.removeBelonging_eq_filter]

/-- C4: `getValues` returns a snapshot.  In the map-heap model: the returned
reference points at a fresh object whose contents equal `s.Values` at the
time of the call; a subsequent `setValue` (a map assignment through the
session's `valuesRef`) changes `s.Values` to the inserted map but leaves the
snapshot object unchanged; and a map assignment through the returned
reference leaves `s.Values` unchanged. -/
theorem c4_getValues_snapshot {V : Type} (h : Adk.MapStore V) (vr : Nat)
    (hvr : vr < h.objs.length) (hnd : Adk.nodupKeys (Adk.readRef h vr)) :
    Adk.readRef (Adk.getValuesRef h vr).1 (Adk.getValuesRef h vr).2
        = Adk.readRef h vr
    ∧ (Adk.getValuesRef h vr).2 ≠ vr
    ∧ (∀ k v,
        Adk.readRef (Adk.mapAssignRef (Adk.getValuesRef h vr).1 vr k v)
            (Adk.getValuesRef h vr).2
          = Adk.readRef (Adk.getValuesRef h vr).1 (Adk.getValuesRef h vr).2
        ∧ Adk.readRef (Adk.mapAssignRef (Adk.getValuesRef h vr).1 vr k v) vr
          = Adk.mapInsert (Adk.readRef h vr) k v)
    ∧ (∀ k v,
        Adk.readRef
            (Adk.mapAssignRef (Adk.getValuesRef h vr).1 (Adk.getValuesRef h vr).2 k v)
            vr
          = Adk.readRef h vr) := by
  have hne : h.objs.length ≠ vr := Nat.ne_of_gt hvr
  have hsnap : Adk.readRef (Adk.getValuesRef h vr).1 (Adk.getValuesRef h vr).2
      = Adk.readRef h vr := by
    show Adk.readRef ⟨h.objs ++ [Adk.copyValues (Adk.readRef h vr)]⟩ h.objs.length = _
    rw [Adk.readRef_alloc_new, Adk.copyValues_eq hnd]
  have halloc_old : Adk.readRef (Adk.getValuesRef h vr).1 vr = Adk.readRef h vr :=
    Adk.readRef_alloc_old h hvr _
  have hvr' : vr < (Adk.getValuesRef h vr).1.objs.length := by
    show vr < (h.objs ++ [Adk.copyValues (Adk.readRef h vr)]).length
    rw [List.length_append]
    omega
  refine ⟨hsnap, hne, ?_, ?_⟩
  · intro k v
    constructor
    · show Adk.readRef (Adk.writeRef (Adk.getValuesRef h vr).1 vr _) h.objs.length = _
      rw [Adk.readRef_writeRef_ne _ (fun he => hne he.symm)]
      rfl
    · show Adk.readRef (Adk.writeRef (Adk.getValuesRef h vr).1 vr _) vr = _
      rw [Adk.readRef_writeRef_self _ hvr', halloc_old]
  · intro k v
    show Adk.readRef (Adk.writeRef (Adk.getValuesRef h vr).1 h.objs.length _) vr = _
    rw [Adk.readRef_writeRef_ne _ hne, halloc_old]

/-- C4, witness: the snapshot theorem at a concrete heap with one session
map `{"a": 1}`: the snapshot equals the session map, and a `setValue`
afterwards leaves the snapshot unchanged. -/
theorem c4_witness :
    Adk.readRef (Adk.getValuesRef (⟨[[("a", 1)]]⟩ : Adk.MapStore Nat) 0).1
        (Adk.getValuesRef (⟨[[("a", 1)]]⟩ : Adk.MapStore Nat) 0).2
      = Adk.readRef (⟨[[("a", 1)]]⟩ : Adk.MapStore Nat) 0
    ∧ Adk.readRef
        (Adk.mapAssignRef (Adk.getValuesRef (⟨[[("a", 1)]]⟩ : Adk.MapStore Nat) 0).1 0 "b" 2)
        (Adk.getValuesRef (⟨[[("a", 1)]]⟩ : Adk.MapStore Nat) 0).2
      = Adk.readRef (Adk.getValuesRef (⟨[[("a", 1)]]⟩ : Adk.MapStore Nat) 0).1
          (Adk.getValuesRef (⟨[[("a", 1)]]⟩ : Adk.MapStore Nat) 0).2 :=
  ⟨(c4_getValues_snapshot (⟨[[("a", 1)]]⟩ : Adk.MapStore Nat) 0 (by decide)
      (by unfold Adk.nodupKeys; decide)).1,
   ((c4_getValues_snapshot (⟨[[("a", 1)]]⟩ : Adk.MapStore Nat) 0 (by decide)
      (by unfold Adk.nodupKeys; decide)).2.2.1 "b" 2).1⟩

/-- C10: on a context carrying no run context the public session accessors
are total and side-effect free: `GetSessionValues` returns the empty map,
`GetSessionValue` returns `(nil, false)` for every key, and
`SetSessionValue` stores nothing. -/
theorem c10_session_accessors_total {V : Type} (ctx : Option (Adk.ctxRunContext V))
    (hc : Adk.getRunCtx ctx = none) :
    Adk.GetSessionValues ctx = []
    ∧ (∀ k, Adk.GetSessionValue ctx k = (none, false))
    ∧ (∀ k v, Adk.SetSessionValue ctx k v = none) := by
  have hs : Adk.getSession ctx = none := by
    unfold Adk.getSession
    rw [hc]
  refine ⟨?_, ?_, ?_⟩ <;>
    simp [Adk.GetSessionValues, Adk.GetSessionValue, Adk.SetSessionValue, hs]

/-- C10, witness: the accessor theorem at the empty context. -/
theorem c10_witness :
    Adk.GetSessionValues (none : Option (Adk.ctxRunContext Nat)) = []
    ∧ Adk.GetSessionValue (none : Option (Adk.ctxRunContext Nat)) "k" = (none, false)
    ∧ Adk.SetSessionValue (none : Option (Adk.ctxRunContext Nat)) "k" 7 = none :=
  ⟨(c10_session_accessors_total none rfl).1,
   (c10_session_accessors_total none rfl).2.1 "k",
   (c10_session_accessors_total none rfl).2.2 "k" 7⟩

namespace Supervisor

/-- The action attached to the tool event the wrapper emits to transfer
control back to the parent agent. -/
structure TransferToAgentAction where
  DestAgentName : String
deriving DecidableEq, Repr

/-- An agent action; only the transfer-to-agent variant is used here. -/
structure AgentAction where
  TransferToAgent : Option TransferToAgentAction
deriving DecidableEq, Repr

/-- A Go error value: an ordinary error, or the structured error that
`safe.NewPanicErr` builds from a recovered panic value (the stack dump it
also records is abstracted away). -/
inductive GoErr where
  | err (msg : String)
  | panicErr (v : String)
deriving DecidableEq, Repr

/-- An agent event, with the fields `BackToParentWrapper.Run` reads or
writes: the error slot and the action slot (the message payload carried by
real events does not influence the forwarding control flow). -/
structure AgentEvent where
  Err : Option GoErr
  Action : Option AgentAction
deriving DecidableEq, Repr

/-- One observable step of the wrapped sub-agent's iterator as seen by the
forwarding goroutine: either `aIter.Next()` yields an event, or the code
running inside the goroutine panics with some value. -/
inductive IterStep where
  | event (e : AgentEvent)
  | panicked (v : String)
deriving DecidableEq, Repr

/-- Modelled from the spec: the assistant-side transfer event built from
`GenTransferMessages` (not among the provided sources); it carries no error
and no action. -/
def transferAEvent (_parent : String) : AgentEvent :=
  { Err := none, Action := none }

/-- The tool-side transfer event: the source explicitly attaches the
`TransferToAgent` action naming the parent agent. -/
def transferTEvent (parent : String) : AgentEvent :=
  { Err := none,
    Action := some { TransferToAgent := some { DestAgentName := parent } } }

/-- The events pushed to the generator by the forwarding goroutine of
`BackToParentWrapper.Run`, in order: each inner event is forwarded; an
event carrying an error ends the run right after being forwarded; when the
inner iterator is exhausted the two transfer-to-parent events are appended;
a panic is recovered by the deferred handler, which sends a single event
carrying the converted panic error. -/
def wrapperForward (parent : String) : List IterStep → List AgentEvent
  | [] => [transferAEvent parent, transferTEvent parent]
  | .event e :: rest =>
      if e.Err.isSome then [e]
      else e :: wrapperForward parent rest
  | .panicked v :: _ => [{ Err := some (GoErr.panicErr v), Action := none }]

/-- The outcome of the goroutine: the pushed events and whether
`generator.Close()` ran (the deferred handler runs it on the normal path,
the error path and the panic path alike, so the iterator never hangs). -/
structure GenOut where
  events : List AgentEvent
  closed : Bool
deriving DecidableEq, Repr

/-- `BackToParentWrapper.Run`'s goroutine, end to end. -/
def wrapperRun (parent : String) (steps : List IterStep) : GenOut :=
  ⟨wrapperForward parent steps, true⟩

lemma wrapperForward_clean_prefix (parent : String) :
    ∀ (pre : List AgentEvent), (∀ e ∈ pre, e.Err = none) →
      ∀ (s : IterStep) (rest : List IterStep),
        wrapperForward parent (pre.map IterStep.event ++ s :: rest)
          = pre ++ wrapperForward parent (s :: rest) := by
  intro pre
  induction pre with
  | nil => intro _ s rest; rfl
  | cons e pre ih =>
      intro hpre s rest
      have he : e.Err = none := hpre e (List.mem_cons_self e pre)
      show wrapperForward parent
          (IterStep.event e :: (pre.map IterStep.event ++ s :: rest)) = _
      rw [wrapperForward, if_neg (by simp [he])]
      rw [ih (fun x hx => hpre x (List.mem_cons_of_mem e hx)) s rest]
      rfl

end Supervisor

/-- C5: a panic inside the event-forwarding goroutine of
`BackToParentWrapper.Run` is recovered and delivered to the consumer as an
`AgentEvent` whose `Err` field carries the converted panic error, after
which the generator is closed; this matches the handling of a forwarded
event that carries an error — in both cases iteration ends with the error
event and the wrapper's transfer-to-parent events are not emitted (every
delivered event is a clean forwarded event or carries no action). -/
theorem c5_wrapper_panic_as_error (parent : String) (pre : List Supervisor.AgentEvent)
    (hpre : ∀ e ∈ pre, e.Err = none) (v : String)
    (rest rest' : List Supervisor.IterStep) (err : Supervisor.GoErr) :
    (Supervisor.wrapperRun parent (pre.map Supervisor.IterStep.event
        ++ Supervisor.IterStep.panicked v :: rest)).events
      = pre ++ [{ Err := some (Supervisor.GoErr.panicErr v), Action := none }]
    ∧ (Supervisor.wrapperRun parent (pre.map Supervisor.IterStep.event
        ++ Supervisor.IterStep.panicked v :: rest)).closed = true
    ∧ (Supervisor.wrapperRun parent (pre.map Supervisor.IterStep.event
        ++ Supervisor.IterStep.event { Err := some err, Action := none } :: rest')).events
      = pre ++ [{ Err := some err, Action := none }]
    ∧ (∀ e ∈ (Supervisor.wrapperRun parent (pre.map Supervisor.IterStep.event
        ++ Supervisor.IterStep.panicked v :: rest)).events,
        e ∈ pre ∨ e.Action = none) := by
  have hpanic : (Supervisor.wrapperRun parent (pre.map Supervisor.IterStep.event
      ++ Supervisor.IterStep.panicked v :: rest)).events
      = pre ++ [{ Err := some (Supervisor.GoErr.panicErr v), Action := none }] := by
    show Supervisor.wrapperForward parent _ = _
    rw [Supervisor.wrapperForward_clean_prefix parent pre hpre]
    rfl
  refine ⟨hpanic, rfl, ?_, ?_⟩
  · show Supervisor.wrapperForward parent _ = _
    rw [Supervisor.wrapperForward_clean_prefix parent pre hpre]
    rfl
  · intro e he
    rw [hpanic] at he
    rcases List.mem_append.mp he with he | he
    · exact Or.inl he
    · exact Or.inr (by rw [List.mem_singleton.mp he])

/-- C5, witness: the theorem at a concrete trace — one clean forwarded
event, then a panic with value `"boom"`. -/
theorem c5_witness :
    (Supervisor.wrapperRun "sup"
        ([({ Err := none, Action := none } : Supervisor.AgentEvent)].map
            Supervisor.IterStep.event
          ++ Supervisor.IterStep.panicked "boom" :: [])).events
      = [({ Err := none, Action := none } : Supervisor.AgentEvent)]
          ++ [{ Err := some (Supervisor.GoErr.panicErr "boom"), Action := none }]
    ∧ (Supervisor.wrapperRun "sup"
        ([({ Err := none, Action := none } : Supervisor.AgentEvent)].map
            Supervisor.IterStep.event
          ++ Supervisor.IterStep.panicked "boom" :: [])).closed = true :=
  ⟨(c5_wrapper_panic_as_error "sup" [{ Err := none, Action := none }] (by decide)
      "boom" [] [] (Supervisor.GoErr.err "e")).1,
   (c5_wrapper_panic_as_error "sup" [{ Err := none, Action := none }] (by decide)
      "boom" [] [] (Supervisor.GoErr.err "e")).2.1⟩

namespace StreamPipe

/-- Modelled from the spec (§4.1): the state of a `schema.Pipe` stream for a
producer/consumer pair that interact sequentially — the queue of sent
`(value, err)` chunks not yet received and whether the writer has closed.
The buffer capacity only affects blocking, never the delivered sequence. -/
structure PipeState (T E : Type) where
  buffer : List (T × Option E)
  closed : Bool

/-- `schema.Pipe(n)`: a fresh stream, nothing sent, writer open. -/
def newPipe (T E : Type) : PipeState T E := ⟨[], false⟩

/-- `sw.Send(v, err)`: appends one chunk in producer order. -/
def send {T E : Type} (st : PipeState T E) (v : T) (e : Option E) : PipeState T E :=
  { st with buffer := st.buffer ++ [(v, e)] }

/-- `sw.Close()`: releases the reader. -/
def closeW {T E : Type} (st : PipeState T E) : PipeState T E :=
  { st with closed := true }

/-- The outcome of one `sr.Recv()` call. -/
inductive RecvOut (T E : Type) where
  | chunk (v : T) (e : Option E)
  | eof
  | blocked
deriving DecidableEq, Repr

/-- `sr.Recv()`: the next chunk in producer order; the end-of-stream
sentinel (`io.EOF`) once the writer has closed and the queue is drained;
otherwise the call would block awaiting the producer. -/
def recv {T E : Type} : PipeState T E → RecvOut T E × PipeState T E
  | ⟨[], true⟩ => (.eof, ⟨[], true⟩)
  | ⟨[], false⟩ => (.blocked, ⟨[], false⟩)
  | ⟨c :: rest, cl⟩ => (.chunk c.1 c.2, ⟨rest, cl⟩)

/-- Send a list of chunks, in order. -/
def sendAll {T E : Type} (st : PipeState T E) (cs : List (T × Option E)) :
    PipeState T E :=
  cs.foldl (fun st c => send st c.1 c.2) st

/-- The outcomes of `n` successive `Recv()` calls. -/
def recvList {T E : Type} : PipeState T E → Nat → List (RecvOut T E)
  | _, 0 => []
  | st, n + 1 => (recv st).1 :: recvList (recv st).2 n

lemma sendAll_eq {T E : Type} :
    ∀ (cs : List (T × Option E)) (st : PipeState T E),
      sendAll st cs = ⟨st.buffer ++ cs, st.closed⟩ := by
  intro cs
  induction cs with
  | nil => intro st; simp [sendAll]
  | cons c cs ih =>
      intro st
      show sendAll (send st c.1 c.2) cs = _
      rw [ih]
      simp [send]

lemma recvList_drain {T E : Type} :
    ∀ (cs : List (T × Option E)),
      recvList (⟨cs, true⟩ : PipeState T E) (cs.length + 1)
        = cs.map (fun c => RecvOut.chunk c.1 c.2) ++ [RecvOut.eof] := by
  intro cs
  induction cs with
  | nil => rfl
  | cons c cs ih =>
      show RecvOut.chunk c.1 c.2 :: recvList (⟨cs, true⟩ : PipeState T E) (cs.length + 1)
          = _
      rw [ih]
      rfl

end StreamPipe

/-- C7: for a pipe-created writer/reader pair, if the producer sends
`v1..vk` (each with nil error) and then closes the writer, successive
`Recv` calls return `v1..vk` in exactly the order they were sent and then
return the end-of-stream sentinel; no value is dropped, duplicated or
reordered. -/
theorem c7_pipe_delivers_in_order (T E : Type) (vs : List T) :
    StreamPipe.recvList
        (StreamPipe.closeW
          (StreamPipe.sendAll (StreamPipe.newPipe T E)
            (vs.map (fun v => (v, none)))))
        (vs.length + 1)
      = vs.map (fun v => StreamPipe.RecvOut.chunk v none)
          ++ [StreamPipe.RecvOut.eof] := by
  rw [StreamPipe.sendAll_eq]
  show StreamPipe.recvList ⟨vs.map (fun v => (v, none)), true⟩ (vs.length + 1) = _
  have hlen : vs.length = (vs.map (fun v => (v, (none : Option E)))).length := by
    rw [List.length_map]
  rw [hlen, StreamPipe.recvList_drain, List.map_map]
  rfl

namespace React

/-- One tool call attached to an assistant message. -/
structure ToolCall where
  id : String
  name : String
  args : String
deriving DecidableEq, Repr

/-- A chat message, with the fields inspected by the ReAct loop: the role,
the text content, the attached tool calls, and the tool name on tool
messages. -/
structure Message where
  role : String
  content : String
  toolCalls : List ToolCall
  toolName : String
deriving DecidableEq, Repr

/-- The tool-response message built for one tool call from the tool
executor's output. -/
def toolResponseMsg (c : ToolCall) (result : String) : Message :=
  ⟨"tool", result, [], c.name⟩

/-- The outcome of one agent run: the final message (`none` when the step
bound is exhausted), the number of chat-model invocations, and every tool
call dispatched to the tools node, in dispatch order. -/
structure ReactResult where
  final : Option Message
  modelCalls : Nat
  toolExecs : List ToolCall
deriving DecidableEq, Repr

/-- Modelled from the spec (§4.7): the ReAct loop (the agent implementation
is not among the provided sources).  `mf n msgs` is the chat model's answer
to its `n`-th invocation (counting from 0) on the current message list;
`tf name args` is the tool executor.  One iteration: call the model; if the
answer carries no tool calls, route to `end` with it; otherwise dispatch
every call of the batch and collect a tool-response message per call; if
some call's name is in the return-directly set `rd`, route to `end` with
the first such call's response (the other results are evaluated but
discarded from the output); otherwise append the model message and the tool
responses to the message list and loop.  `fuel` is the `max-step` bound;
exhausting it is a fatal error, modelled as `final = none`. -/
def reactLoop (mf : Nat → List Message → Message) (tf : String → String → String)
    (rd : List String) :
    Nat → Nat → List Message → List ToolCall → ReactResult
  | 0, calls, _, execs => ⟨none, calls, execs⟩
  | fuel + 1, calls, msgs, execs =>
      let out := mf calls msgs
      if out.toolCalls.isEmpty then ⟨some out, calls + 1, execs⟩
      else
        let results := out.toolCalls.map (fun c => toolResponseMsg c (tf c.name c.args))
        match out.toolCalls.find? (fun c => rd.contains c.name) with
        | some c => ⟨some (toolResponseMsg c (tf c.name c.args)), calls + 1,
            execs ++ out.toolCalls⟩
        | none => reactLoop mf tf rd fuel (calls + 1) (msgs ++ out :: results)
            (execs ++ out.toolCalls)

/-- `Generate`: run the loop on the initial message list. -/
def reactGenerate (mf : Nat → List Message → Message) (tf : String → String → String)
    (rd : List String) (maxStep : Nat) (msgs : List Message) : ReactResult :=
  reactLoop mf tf rd maxStep 0 msgs []

end React

/-- C8: when the model's first step emits a parallel batch of two tool
calls of which the second invokes a return-directly tool, the run routes to
`end` after the tools node with that tool's response as the final message,
both calls of the batch are still dispatched, and the model is invoked
exactly once. -/
theorem c8_return_directly_parallel (mf : Nat → List React.Message → React.Message)
    (tf : String → String → String) (rd : List String)
    (msgs : List React.Message) (m : Nat) (c₁ c₂ : React.ToolCall)
    (h0 : ∀ ms, (mf 0 ms).toolCalls = [c₁, c₂])
    (h1 : rd.contains c₁.name = false)
    (h2 : rd.contains c₂.name = true) :
    React.reactGenerate mf tf rd (m + 1) msgs
      = ⟨some (React.toolResponseMsg c₂ (tf c₂.name c₂.args)), 1, [c₁, c₂]⟩ := by
  have hd1 : c₁.name ∉ rd := by simpa using h1
  have hd2 : c₂.name ∈ rd := by simpa using h2
  show React.reactLoop mf tf rd (m + 1) 0 msgs [] = _
  rw [React.reactLoop]
  simp [h0 msgs, hd1, hd2, List.find?]

/-- C8, witness: a concrete model emitting the batch
`[greet, greet in stream]` with `greet in stream` return-directly. -/
theorem c8_witness :
    React.reactGenerate
        (fun n _ => if n = 0 then
            ⟨"assistant", "hello max",
              [⟨"1", "greet", "max"⟩, ⟨"2", "greet in stream", "bob"⟩], ""⟩
          else ⟨"assistant", "bye", [], ""⟩)
        (fun _ _ => "done") ["greet in stream"] 40 []
      = ⟨some (React.toolResponseMsg ⟨"2", "greet in stream", "bob"⟩ "done"), 1,
          [⟨"1", "greet", "max"⟩, ⟨"2", "greet in stream", "bob"⟩]⟩ :=
  c8_return_directly_parallel
    (fun n _ => if n = 0 then
        ⟨"assistant", "hello max",
          [⟨"1", "greet", "max"⟩, ⟨"2", "greet in stream", "bob"⟩], ""⟩
      else ⟨"assistant", "bye", [], ""⟩)
    (fun _ _ => "done") ["greet in stream"] [] 39
    ⟨"1", "greet", "max"⟩ ⟨"2", "greet in stream", "bob"⟩
    (fun _ => rfl) (by decide) (by decide)

/-- C9: when the chat model answers with one tool call on each of its first
two invocations and with the plain message `bye` (no tool calls) on its
third, `Generate` terminates with `bye` as the final message, the model is
invoked three times, and the tool is invoked exactly twice. -/
theorem c9_two_tool_loops_then_bye (mf : Nat → List React.Message → React.Message)
    (tf : String → String → String) (msgs : List React.Message) (m : Nat)
    (c₁ c₂ : React.ToolCall) (bye : React.Message)
    (h0 : ∀ ms, (mf 0 ms).toolCalls = [c₁])
    (h1 : ∀ ms, (mf 1 ms).toolCalls = [c₂])
    (h2 : ∀ ms, mf 2 ms = bye)
    (hb : bye.toolCalls = [])
    (hc : bye.content = "bye") :
    React.reactGenerate mf tf [] (m + 3) msgs = ⟨some bye, 3, [c₁, c₂]⟩
    ∧ bye.content = "bye" := by
  refine ⟨?_, hc⟩
  show React.reactLoop mf tf [] ((m + 2) + 1) 0 msgs [] = _
  rw [React.reactLoop]
  simp only [h0 msgs, List.isEmpty_cons, List.find?, List.contains_nil, Bool.false_eq_true,
    if_false]
  show React.reactLoop mf tf [] ((m + 1) + 1) 1 _ _ = _
  rw [React.reactLoop]
  simp only [h1, List.isEmpty_cons, List.find?, List.contains_nil, Bool.false_eq_true,
    if_false]
  show React.reactLoop mf tf [] (m + 1) 2 _ _ = _
  rw [React.reactLoop]
  simp [h2, hb]

/-- C9, witness: a concrete model answering with one `greet` call twice and
then `bye`. -/
theorem c9_witness :
    React.reactGenerate
        (fun n _ => if n = 0 then ⟨"assistant", "hello max", [⟨"1", "greet", "max"⟩], ""⟩
          else if n = 1 then ⟨"assistant", "hello bob", [⟨"2", "greet", "bob"⟩], ""⟩
          else ⟨"assistant", "bye", [], ""⟩)
        (fun _ _ => "hello") [] 10 []
      = ⟨some ⟨"assistant", "bye", [], ""⟩, 3, [⟨"1", "greet", "max"⟩, ⟨"2", "greet", "bob"⟩]⟩
    ∧ (⟨"assistant", "bye", [], ""⟩ : React.Message).content = "bye" :=
  c9_two_tool_loops_then_bye
    (fun n _ => if n = 0 then ⟨"assistant", "hello max", [⟨"1", "greet", "max"⟩], ""⟩
      else if n = 1 then ⟨"assistant", "hello bob", [⟨"2", "greet", "bob"⟩], ""⟩
      else ⟨"assistant", "bye", [], ""⟩)
    (fun _ _ => "hello") [] 7
    ⟨"1", "greet", "max"⟩ ⟨"2", "greet", "bob"⟩ ⟨"assistant", "bye", [], ""⟩
    (fun _ => rfl) (fun _ => rfl) (fun _ => rfl) rfl rfl
